import Mathlib

/-!
Verification of the WeatherStat_JMA data-retrieval and parsing code.

The Python sources (notebook/read_weather.py and notebook/read_index.py)
are shallowly embedded below.  Python strings are modelled as `List Char`
(one element per decoded character); every embedded function is named
after its source counterpart and its doc comment cites the source lines
it mirrors.
-/

set_option maxRecDepth 8192

/-- Model of the Python single-character `str.split(sep)`: cut the string
at every occurrence of `sep`, keeping empty pieces, so the result always
has one more piece than there are separators (and splitting the empty
string yields one empty piece, as in Python). -/
def pySplit (sep : Char) : List Char → List (List Char)
  | [] => [[]]
  | c :: rest =>
    match pySplit sep rest with
    | [] => [[]]
    | h :: t => if c = sep then [] :: h :: t else (c :: h) :: t

/-- The preprocessing step of read_csv (read_weather.py lines 300 and 303):
split the response text on the newline character, discard the first two
lines, and join the remaining lines with the EMPTY separator, producing
the text that is handed to the CSV parser. -/
def read_csv_input (csvText : List Char) : List Char :=
  List.flatten ((pySplit '\n' csvText).drop 2)

theorem pySplit_ne_nil (sep : Char) (l : List Char) : pySplit sep l ≠ [] := by
  induction l with
  | nil => simp [pySplit]
  | cons c rest ih =>
    cases hr : pySplit sep rest with
    | nil => exact absurd hr ih
    | cons h t =>
      simp only [pySplit, hr]
      split <;> simp

theorem pySplit_no_sep (sep : Char) (l : List Char) (h : sep ∉ l) :
    pySplit sep l = [l] := by
  induction l with
  | nil => rfl
  | cons c rest ih =>
    have hc : c ≠ sep := fun e => h (e ▸ List.mem_cons_self c rest)
    have hr : sep ∉ rest := fun m => h (List.mem_cons_of_mem _ m)
    simp [pySplit, ih hr, hc]

theorem pySplit_append (sep : Char) (xs ys : List Char) (h : sep ∉ xs) :
    pySplit sep (xs ++ sep :: ys) = xs :: pySplit sep ys := by
  induction xs with
  | nil =>
    simp only [List.nil_append, pySplit]
    cases hys : pySplit sep ys with
    | nil => exact absurd hys (pySplit_ne_nil sep ys)
    | cons a t => simp
  | cons x xs ih =>
    have hx : x ≠ sep := fun e => h (e ▸ List.mem_cons_self x xs)
    have hxs : sep ∉ xs := fun m => h (List.mem_cons_of_mem _ m)
    simp only [List.cons_append, pySplit, List.append_eq, ih hxs, hx, if_false]

/-- Splitting a concatenation of `sep`-terminated pieces recovers the
pieces followed by one trailing empty piece. -/
theorem pySplit_join_terminated (sep : Char) (ms : List (List Char))
    (h : ∀ m ∈ ms, sep ∉ m) :
    pySplit sep (List.flatten (ms.map (fun m => m ++ [sep]))) = ms ++ [[]] := by
  induction ms with
  | nil => simp [pySplit]
  | cons m ms ih =>
    have hm : sep ∉ m := h m (List.mem_cons_self m ms)
    have hms : ∀ x ∈ ms, sep ∉ x := fun x hx => h x (List.mem_cons_of_mem _ hx)
    simp only [List.map_cons, List.flatten_cons, List.append_assoc, List.singleton_append]
    rw [pySplit_append sep m _ hm, ih hms]
    simp

/-- C1, counterexample: for the newline-only response text "t\nm\na\nb"
the preprocessed parser input merges the two remaining data lines into a
single line, so the original line structure is NOT kept intact and the
data rows do not come from line 3 onward as separate records. -/
theorem read_csv_counterexample :
    pySplit '\n' (read_csv_input ("t\nm\na\nb".data)) ≠
      (pySplit '\n' ("t\nm\na\nb".data)).drop 2 := by decide

/-- C1, amended: read_csv joins the lines after the first two with NO
separator, so the line structure survives only for carriage-return
terminated lines (CRLF input, as the portal produces): splitting the
preprocessed text on the carriage return recovers exactly the lines from
the third onward, plus one trailing empty piece. -/
theorem read_csv_input_crlf (ls : List (List Char))
    (h : ∀ l ∈ ls, '\r' ∉ l ∧ '\n' ∉ l) :
    pySplit '\r' (read_csv_input (List.flatten (ls.map (fun l => l ++ ['\r', '\n'])))) =
      ls.drop 2 ++ [[]] := by
  have hmap : ls.map (fun l => l ++ ['\r', '\n'])
      = (ls.map (fun l => l ++ ['\r'])).map (fun m => m ++ ['\n']) := by
    rw [List.map_map]
    refine List.map_congr_left ?_
    intro l _
    simp
  have hsplit : pySplit '\n' (List.flatten (ls.map (fun l => l ++ ['\r', '\n'])))
      = (ls.map (fun l => l ++ ['\r'])) ++ [[]] := by
    rw [hmap]
    refine pySplit_join_terminated '\n' _ ?_
    intro m hm
    rcases List.mem_map.mp hm with ⟨l, hl, rfl⟩
    intro hmem
    rcases List.mem_append.mp hmem with h1 | h2
    · exact (h l hl).2 h1
    · simp at h2
  unfold read_csv_input
  rw [hsplit]
  match ls, h with
  | [], _ => simp [pySplit]
  | [a], h => simp [pySplit]
  | a :: b :: rest, h =>
    have hrest : ∀ l ∈ rest, '\r' ∉ l := by
      intro l hl
      exact (h l (List.mem_cons_of_mem _ (List.mem_cons_of_mem _ hl))).1
    simp only [List.map_cons, List.cons_append, List.drop_succ_cons, List.drop_zero]
    rw [List.flatten_append]
    simp only [List.flatten, List.append_nil]
    rw [pySplit_join_terminated '\r' rest hrest]

/-- C1 witness: the amended statement evaluated at a concrete CRLF text
with title, metadata and two data lines. -/
theorem read_csv_input_crlf_witness :
    pySplit '\r' (read_csv_input (List.flatten
        ([['t'], ['m'], ['a'], ['b']].map (fun l => l ++ ['\r', '\n'])))) =
      [['a'], ['b'], []] :=
  read_csv_input_crlf [['t'], ['m'], ['a'], ['b']] (by decide)

/-- Python whitespace characters for `str.strip` (ASCII range). -/
def pyIsSpace (c : Char) : Bool :=
  c = ' ' || c = '\t' || c = '\n' || c = '\r' || c = '\x0b' || c = '\x0c'

/-- Python `str.strip()`: drop whitespace from both ends of the string. -/
def pyStrip (l : List Char) : List Char :=
  ((l.dropWhile pyIsSpace).reverse.dropWhile pyIsSpace).reverse

/-- kansoku_items (read_weather.py lines 126-136).  The Python dict
literal evaluates bits[0] .. bits[5] in order; Python string indexing
raises IndexError when the index is not below the length, and the guard
before the dict literal only rules out lengths below 5.  The argument
`none` models a None bit-string (a hidden input without a value
attribute). -/
def kansoku_items (bits : Option (List Char)) :
    Except String (List (String × Bool)) :=
  match bits with
  | none => .ok []
  | some b =>
    if b.length < 5 then .ok []
    else
      match b.get? 0, b.get? 1, b.get? 2, b.get? 3, b.get? 4, b.get? 5 with
      | some b0, some b1, some b2, some b3, some b4, some b5 =>
        .ok [("rain", b0 != '0'), ("wind", b1 != '0'), ("temp", b2 != '0'),
             ("sun", b3 != '0'), ("snow", b4 != '0'), ("etc", b5 != '0')]
      | _, _, _, _, _, _ => .error "IndexError"

/-- C2: the source guard admits bit-strings of length exactly 5, but the
flag dictionary reads index 5, so the length-5 bit-string "11111" raises
IndexError instead of producing the six flags; length 6 and above
produces all six flags, and absent or short bit-strings produce the
empty mapping. -/
theorem kansoku_items_eval :
    kansoku_items (some ("11111".data)) = .error "IndexError" ∧
    kansoku_items (some ("111111".data)) =
      .ok [("rain", true), ("wind", true), ("temp", true),
           ("sun", true), ("snow", true), ("etc", true)] ∧
    kansoku_items (some ("1111".data)) = .ok [] ∧
    kansoku_items none = .ok [] :=
  ⟨rfl, rfl, rfl, rfl⟩

/-- A nonempty run of ASCII digits. -/
def pyDigits (l : List Char) : Bool := !l.isEmpty && l.all (fun c => c.isDigit)

/-- Numeric value of a digit run. -/
def digitsVal (l : List Char) : Nat :=
  l.foldl (fun a c => a * 10 + (c.toNat - 48)) 0

/-- Model of the Python builtin int(str) on ASCII strings without digit
underscores: optional surrounding whitespace, an optional single sign,
then one or more digits; anything else raises ValueError (here: none). -/
def pyIntParse (s : List Char) : Option Int :=
  match pyStrip s with
  | [] => none
  | c :: r =>
    if c = '+' then (if pyDigits r then some (digitsVal r : Int) else none)
    else if c = '-' then
      (if pyDigits r then some (-(digitsVal r : Int)) else none)
    else if pyDigits (c :: r) then some (digitsVal (c :: r) : Int) else none

/-- Exponent part of a float literal: empty, or e/E with an optional sign
and a nonempty digit run. -/
def pyExpPart (l : List Char) : Bool :=
  match l with
  | [] => true
  | c :: r =>
    (c = 'e' || c = 'E') &&
      (match r with
       | [] => false
       | d :: r2 => if d = '+' || d = '-' then pyDigits r2 else pyDigits r)

/-- Finite mantissa: digits with an optional fraction dot (at least one
digit on one of the two sides), followed by an optional exponent. -/
def pyMantissa (l : List Char) : Bool :=
  let d1 := l.takeWhile (fun c => c.isDigit)
  let r1 := l.dropWhile (fun c => c.isDigit)
  match r1 with
  | '.' :: r2 =>
    let d2 := r2.takeWhile (fun c => c.isDigit)
    let r3 := r2.dropWhile (fun c => c.isDigit)
    (!d1.isEmpty || !d2.isEmpty) && pyExpPart r3
  | _ => !d1.isEmpty && pyExpPart r1

/-- Case-insensitive special float names accepted by the Python builtin. -/
def pySpecialFloat (l : List Char) : Bool :=
  let low := l.map Char.toLower
  low == "inf".data || low == "infinity".data || low == "nan".data

/-- Model of the Python builtin float(str) acceptance on ASCII strings
without digit underscores: optional surrounding whitespace, an optional
sign, then either a finite mantissa with optional exponent or one of the
special names inf, infinity, nan (case-insensitive). -/
def pyFloatAccepts (s : List Char) : Bool :=
  match pyStrip s with
  | [] => false
  | c :: r =>
    if c = '+' || c = '-' then pyMantissa r || pySpecialFloat r
    else pyMantissa (c :: r) || pySpecialFloat (c :: r)

/-- The kind of value parse_number can produce: a Python int with its
value, or a Python float (whose floating value is not modelled). -/
inductive PyNumber where
  | intVal (n : Int)
  | floatVal
  deriving DecidableEq

/-- parse_number (read_weather.py lines 220-235): try int() and return
its value; on ValueError fall back to float(); a float() failure
propagates as ValueError. -/
def parse_number (s : List Char) : Except String PyNumber :=
  match pyIntParse s with
  | some n => .ok (.intVal n)
  | none => if pyFloatAccepts s then .ok .floatVal else .error "ValueError"

/-- Claim-side reading of a valid integer literal with no decimal point
or exponent: after stripping whitespace, an optional sign followed by a
nonempty digit run (a digit run contains no dot and no exponent letter
by construction). -/
def isIntegerLiteral (s : List Char) : Bool :=
  match pyStrip s with
  | [] => false
  | c :: r => if c = '+' || c = '-' then pyDigits r else pyDigits (c :: r)

theorem pyIntParse_isSome (s : List Char) :
    (pyIntParse s).isSome = isIntegerLiteral s := by
  unfold pyIntParse isIntegerLiteral
  cases ht : pyStrip s with
  | nil => rfl
  | cons c r =>
    by_cases hp : c = '+'
    · subst hp
      cases hd : pyDigits r <;> simp [hd]
    · by_cases hm : c = '-'
      · subst hm
        cases hd : pyDigits r <;> simp [hd, hp]
      · cases hd : pyDigits (c :: r) <;> simp [hp, hm, hd]

/-- C3: parse_number returns an integer exactly on valid integer
literals (no decimal point or exponent), otherwise returns a float
exactly on valid floating literals, and otherwise fails with ValueError;
no other outcome is possible. -/
theorem parse_number_spec (s : List Char) :
    ((∃ n, parse_number s = .ok (.intVal n)) ↔ isIntegerLiteral s = true) ∧
    (parse_number s = .ok .floatVal ↔
      (isIntegerLiteral s = false ∧ pyFloatAccepts s = true)) ∧
    (parse_number s = .error "ValueError" ↔
      (isIntegerLiteral s = false ∧ pyFloatAccepts s = false)) := by
  have hi := pyIntParse_isSome s
  unfold parse_number
  cases hp : pyIntParse s with
  | some n =>
    rw [hp] at hi
    simp only [Option.isSome_some] at hi
    simp [← hi]
  | none =>
    rw [hp] at hi
    simp only [Option.isSome_none] at hi
    cases hf : pyFloatAccepts s <;> simp [← hi]

/-- Field byte widths of the SMASTER index records (read_index.py
line 22). -/
def SMASTER_COLLEN : List Nat :=
  [3, 1, 1, 1, 1, 1, 1, 1, 1, 1, 2, 1, 1, 8, 12, 6, 7, 5, 5, 3, 1, 1,
   8, 8, 12, 18, 8, 5, 12, 1, 1, 1, 1, 1, 1, 5]

/-- The per-line loop of read_smaster (read_index.py lines 38-44): for
each declared width, slice line[start:start+width] (Python slicing clamps
at the end of the line), decode and strip it, and advance start by the
width.  Decoding is modelled as the identity on already-decoded
single-byte characters; a malformed multi-byte sequence is a hard
failure outside this model. -/
def smasterFields : List Nat → Nat → List Char → List (List Char)
  | [], _, _ => []
  | w :: ws, start, line =>
    pyStrip ((line.drop start).take w) :: smasterFields ws (start + w) line

/-- One reconstructed SMASTER record. -/
def read_smaster_line (line : List Char) : List (List Char) :=
  smasterFields SMASTER_COLLEN 0 line

/-- The raw (unstripped) byte slices of a line under a width table. -/
def chunksAt : List Nat → Nat → List Char → List (List Char)
  | [], _, _ => []
  | w :: ws, start, line =>
    ((line.drop start).take w) :: chunksAt ws (start + w) line

/-- Pad a decoded field back to its declared width with spaces. -/
def padTo (f : List Char) (w : Nat) : List Char :=
  f ++ List.replicate (w - f.length) ' '

theorem dropWhile_length_le (p : Char → Bool) (l : List Char) :
    (l.dropWhile p).length ≤ l.length := by
  induction l with
  | nil => simp
  | cons c t ih =>
    rw [List.dropWhile_cons]
    split
    · exact Nat.le_trans ih (Nat.le_succ _)
    · simp

theorem pyStrip_length_le (l : List Char) : (pyStrip l).length ≤ l.length := by
  unfold pyStrip
  have h1 := dropWhile_length_le pyIsSpace l
  have h2 := dropWhile_length_le pyIsSpace (l.dropWhile pyIsSpace).reverse
  simp only [List.length_reverse] at *
  omega

theorem pyStrip_append_spaces (v : List Char) (n : Nat) :
    pyStrip (v ++ List.replicate n ' ') = pyStrip v := by
  unfold pyStrip
  rw [List.dropWhile_append]
  cases hv : v.dropWhile pyIsSpace with
  | nil =>
    simp only [hv, List.isEmpty_nil, if_true]
    rw [List.dropWhile_replicate]
    simp [pyIsSpace]
  | cons c t =>
    simp only [hv, List.isEmpty_cons, Bool.false_eq_true, if_false]
    rw [List.reverse_append, List.reverse_replicate]
    rw [List.dropWhile_append_of_pos]
    intro a ha
    rw [List.eq_of_mem_replicate ha]
    simp [pyIsSpace]

theorem dropWhile_head_false (p : Char → Bool) (l : List Char) (c : Char)
    (t : List Char) (h : l.dropWhile p = c :: t) : p c = false := by
  induction l with
  | nil => simp [List.dropWhile] at h
  | cons a l ih =>
    rw [List.dropWhile_cons] at h
    by_cases ha : p a
    · rw [if_pos ha] at h
      exact ih h
    · rw [if_neg ha] at h
      injection h with h1 _
      subst h1
      simpa using ha

theorem dropWhile_self_of_dropWhile (p : Char → Bool) (l : List Char) :
    ((l.dropWhile p).dropWhile p) = l.dropWhile p := by
  cases h : l.dropWhile p with
  | nil => simp
  | cons c t =>
    rw [List.dropWhile_cons_of_neg]
    simp [dropWhile_head_false p l c t h]

theorem pyStrip_idem (x : List Char) : pyStrip (pyStrip x) = pyStrip x := by
  have hrev : (pyStrip x).reverse
      = ((x.dropWhile pyIsSpace).reverse).dropWhile pyIsSpace := by
    unfold pyStrip
    rw [List.reverse_reverse]
  have h2 : (pyStrip x).reverse.dropWhile pyIsSpace = (pyStrip x).reverse := by
    rw [hrev]
    exact dropWhile_self_of_dropWhile pyIsSpace _
  have h1 : (pyStrip x).dropWhile pyIsSpace = pyStrip x := by
    have hsuf : (pyStrip x).reverse <:+ (x.dropWhile pyIsSpace).reverse := by
      rw [hrev]
      exact List.dropWhile_suffix pyIsSpace
    have hpre : pyStrip x <+: x.dropWhile pyIsSpace := by
      have := List.reverse_prefix.mpr hsuf
      simpa using this
    rcases hpre with ⟨t, ht⟩
    cases hw : pyStrip x with
    | nil => simp
    | cons c t2 =>
      rw [hw] at ht
      rw [List.dropWhile_cons_of_neg]
      simp [dropWhile_head_false pyIsSpace x c (t2 ++ t) ht.symm]
  calc pyStrip (pyStrip x)
      = (((pyStrip x).dropWhile pyIsSpace).reverse.dropWhile pyIsSpace).reverse := rfl
    _ = ((pyStrip x).reverse.dropWhile pyIsSpace).reverse := by rw [h1]
    _ = (pyStrip x).reverse.reverse := by rw [h2]
    _ = pyStrip x := List.reverse_reverse _

/-- Stripping a stripped field padded back with trailing spaces recovers
the stripped field. -/
theorem pyStrip_padTo (c : List Char) (w : Nat) :
    pyStrip (padTo (pyStrip c) w) = pyStrip c := by
  unfold padTo
  rw [pyStrip_append_spaces, pyStrip_idem]

theorem smasterFields_length (ws : List Nat) (start : Nat) (line : List Char) :
    (smasterFields ws start line).length = ws.length := by
  induction ws generalizing start with
  | nil => rfl
  | cons w ws ih => simp [smasterFields, ih]

theorem chunksAt_flatten (ws : List Nat) (start : Nat) (line : List Char) :
    (chunksAt ws start line).flatten = (line.drop start).take ws.sum := by
  induction ws generalizing start with
  | nil => simp [chunksAt]
  | cons w ws ih =>
    simp only [chunksAt, List.flatten_cons, List.sum_cons]
    rw [ih (start + w), List.take_add, ← List.drop_drop]

theorem padTo_length (f : List Char) (w : Nat) (h : f.length ≤ w) :
    (padTo f w).length = w := by
  simp only [padTo, List.length_append, List.length_replicate]
  omega

theorem smasterFields_padded_matches (ws : List Nat) (start : Nat)
    (line : List Char) :
    List.Forall₂ (fun p c => pyStrip p = pyStrip c)
      (List.zipWith padTo (smasterFields ws start line) ws)
      (chunksAt ws start line) := by
  induction ws generalizing start with
  | nil => exact List.Forall₂.nil
  | cons w ws ih =>
    refine List.Forall₂.cons ?_ (ih (start + w))
    exact pyStrip_padTo _ w

theorem smasterFields_padded_flatten_length (ws : List Nat) (start : Nat)
    (line : List Char) :
    (List.zipWith padTo (smasterFields ws start line) ws).flatten.length
      = ws.sum := by
  induction ws generalizing start with
  | nil => rfl
  | cons w ws ih =>
    simp only [smasterFields, List.zipWith_cons_cons, List.flatten_cons,
      List.length_append, List.sum_cons, ih (start + w)]
    have hle : (pyStrip ((line.drop start).take w)).length ≤ w :=
      Nat.le_trans (pyStrip_length_le _) (by simp [List.length_take])
    rw [padTo_length _ _ hle]

/-- C5, counterexample: the total declared width, the sum of the 36
entries of SMASTER_COLLEN, is 146 bytes, not the 122 bytes asserted by
the claim. -/
theorem smaster_width_counterexample :
    SMASTER_COLLEN.sum = 146 ∧ SMASTER_COLLEN.sum ≠ 122 := by
  constructor <;> decide

/-- C5, amended: for every line at least as long as the total declared
width (146 bytes, the sum of the 36 widths), the reconstructed record
has exactly 36 fields, and each field padded back to its declared width
matches, whitespace aside, the corresponding raw byte slice; the padded
fields concatenate to exactly the 146 bytes that the slices tile. -/
theorem read_smaster_line_spec (line : List Char)
    (h : SMASTER_COLLEN.sum ≤ line.length) :
    (read_smaster_line line).length = 36 ∧
    List.Forall₂ (fun p c => pyStrip p = pyStrip c)
      (List.zipWith padTo (read_smaster_line line) SMASTER_COLLEN)
      (chunksAt SMASTER_COLLEN 0 line) ∧
    (List.zipWith padTo (read_smaster_line line) SMASTER_COLLEN).flatten.length
      = SMASTER_COLLEN.sum ∧
    (chunksAt SMASTER_COLLEN 0 line).flatten = line.take SMASTER_COLLEN.sum ∧
    (line.take SMASTER_COLLEN.sum).length = SMASTER_COLLEN.sum := by
  refine ⟨smasterFields_length _ 0 line, smasterFields_padded_matches _ 0 line,
    smasterFields_padded_flatten_length _ 0 line, ?_, ?_⟩
  · rw [chunksAt_flatten]
    simp
  · rw [List.length_take]
    omega

/-- C5 witness: the first conjunct of the amended statement at a concrete
146-byte line. -/
theorem read_smaster_line_spec_witness :
    (read_smaster_line (List.replicate 146 'A')).length = 36 :=
  (read_smaster_line_spec (List.replicate 146 'A') (by decide)).1

theorem smasterFields_bounds (ws : List Nat) (start : Nat) (line : List Char)
    (i : Nat) (f : List Char) (w : Nat)
    (hf : (smasterFields ws start line).get? i = some f)
    (hw : ws.get? i = some w) :
    f.length ≤ w ∧ f.length ≤ line.length - (start + (ws.take i).sum) := by
  induction ws generalizing start i with
  | nil => simp [smasterFields] at hf
  | cons w0 ws ih =>
    cases i with
    | zero =>
      simp only [smasterFields, List.get?_cons_zero, Option.some.injEq] at hf hw
      subst hf
      subst hw
      constructor
      · refine Nat.le_trans (pyStrip_length_le _) ?_
        rw [List.length_take]
        exact Nat.min_le_left _ _
      · refine Nat.le_trans (pyStrip_length_le _) ?_
        simp only [List.length_take, List.length_drop, List.take_zero,
          List.sum_nil, Nat.add_zero]
        exact Nat.min_le_right _ _
    | succ i =>
      simp only [smasterFields, List.get?_cons_succ] at hf hw
      have := ih (start + w0) i hf hw
      simpa [List.take_succ_cons, Nat.add_assoc, Nat.add_comm, Nat.add_left_comm]
        using this

/-- C8: a line shorter than the total declared width still yields a full
36-field record without erroring; each field is no longer than its
declared width, and no longer than what remains of the line past the
field start offset (in particular a field whose range lies entirely past
the end of the line is empty). -/
theorem read_smaster_line_short (line : List Char)
    (_h : line.length < SMASTER_COLLEN.sum) (i : Nat) (f : List Char) (w : Nat)
    (hf : (read_smaster_line line).get? i = some f)
    (hw : SMASTER_COLLEN.get? i = some w) :
    (read_smaster_line line).length = 36 ∧
    f.length ≤ w ∧
    f.length ≤ line.length - (SMASTER_COLLEN.take i).sum := by
  have hb := smasterFields_bounds SMASTER_COLLEN 0 line i f w hf hw
  exact ⟨smasterFields_length _ 0 line, hb.1, by simpa using hb.2⟩

/-- C8 witness: the statement at the concrete 2-byte line "AB" and the
last field (index 35), whose declared range lies wholly past the end of
the line, showing it comes out empty. -/
theorem read_smaster_line_short_witness :
    (read_smaster_line ("AB".data)).length = 36 ∧
    (List.nil : List Char).length ≤ 5 ∧
    (List.nil : List Char).length ≤ ("AB".data).length -
      (SMASTER_COLLEN.take 35).sum :=
  read_smaster_line_short ("AB".data) (by decide) 35 [] 5 (by decide) (by decide)

/-- A Python datetime.date, reduced to the fields the payload uses. -/
structure PyDate where
  year : Nat
  month : Nat
  day : Nat

/-- Python str.join as used by ",".join (read_weather.py line 257). -/
def pyJoinStr (sep : String) : List String → String
  | [] => ""
  | [x] => x
  | x :: xs => x ++ sep ++ pyJoinStr sep xs

/-- element_str construction (read_weather.py line 257): a bracketed,
comma-joined list of two-element arrays pairing each element id with an
empty string. -/
def elementNumList (elements : List Nat) : String :=
  "[" ++ pyJoinStr ","
    (elements.map (fun elm => "[\"" ++ toString elm ++ "\",\"\"]")) ++ "]"

/-- stationNumList field of the payload (read_weather.py line 270). -/
def stationNumList (station : String) : String := "[\"" ++ station ++ "\"]"

/-- ymdList field of the payload (read_weather.py lines 272-276): begin
and end years, then months, then days, comma-and-space separated, each
in double quotes. -/
def ymdList (beginDate endDate : PyDate) : String :=
  "[\"" ++ toString beginDate.year ++ "\", \"" ++ toString endDate.year
    ++ "\", \"" ++ toString beginDate.month ++ "\", \"" ++ toString endDate.month
    ++ "\", \"" ++ toString beginDate.day ++ "\", \"" ++ toString endDate.day
    ++ "\"]"

/-- C4: with one element id the elementNumList payload field is exactly
the array-of-pairs string, the ymdList field is exactly the 6-element
string of begin/end year, month and day, and the stationNumList field is
the singleton JSON array holding the station code. -/
theorem get_weather_as_csv_payload (e : Nat) (st : String) (b en : PyDate) :
    elementNumList [e] = "[[\"" ++ toString e ++ "\",\"\"]]" ∧
    ymdList b en = "[\"" ++ toString b.year ++ "\", \"" ++ toString en.year
      ++ "\", \"" ++ toString b.month ++ "\", \"" ++ toString en.month
      ++ "\", \"" ++ toString b.day ++ "\", \"" ++ toString en.day ++ "\"]" ∧
    stationNumList st = "[\"" ++ st ++ "\"]" := by
  refine ⟨?_, rfl, rfl⟩
  apply String.ext
  have hd : ∀ x y : String, (x ++ y).data = x.data ++ y.data :=
    fun ⟨_⟩ ⟨_⟩ => rfl
  simp only [elementNumList, pyJoinStr, List.map_cons, List.map_nil, hd,
    List.append_assoc]
  rfl

/-- Substring containment, as the Python `in` operator on strings. -/
def containsSub (pat : List Char) : List Char → Bool
  | [] => pat.isEmpty
  | c :: rest => pat.isPrefixOf (c :: rest) || containsSub pat rest

/-- The substring the header fix looks for (read_weather.py line 308). -/
def unnamedChars : List Char := "Unnamed".data

/-- Header collapsing (read_weather.py lines 306-308): drop the level at
index 2 of every column tuple (droplevel([2])), then replace every
remaining cell that contains the substring "Unnamed" with the empty
string. -/
def collapseHeader (cols : List (List (List Char))) : List (List (List Char)) :=
  (cols.map (fun col => col.eraseIdx 2)).map
    (fun col => col.map (fun x => if containsSub unnamedChars x then [] else x))

/-- Claim-side auto-generated label form: the literal "Unnamed: " prefix
followed by a number. -/
def isUnnamedForm (x : List Char) : Bool :=
  ("Unnamed: ".data).isPrefixOf x && pyDigits (x.drop 9)

/-- C7, counterexample: the header cell "xUnnamed" is not of the
auto-generated form, yet the collapsing step blanks it (the code tests
substring containment, not the exact auto-generated form), so cells
other than the auto-generated ones are not left unchanged. -/
theorem collapseHeader_counterexample :
    collapseHeader [["a".data, "b".data, "c".data, "xUnnamed".data]] =
      [["a".data, "b".data, []]] ∧
    isUnnamedForm ("xUnnamed".data) = false := by
  constructor <;> decide

/-- C7, amended: for every 4-level column tuple, the collapsing step
removes the third level entirely and replaces with the empty string
exactly those remaining cells that contain the substring "Unnamed",
leaving every other cell unchanged; the number of columns is
preserved. -/
theorem collapseHeader_spec (cols : List (List (List Char))) (i : Nat)
    (a b c d : List Char) (h : cols[i]? = some [a, b, c, d]) :
    (collapseHeader cols).length = cols.length ∧
    (collapseHeader cols)[i]? = some
      [if containsSub unnamedChars a then [] else a,
       if containsSub unnamedChars b then [] else b,
       if containsSub unnamedChars d then [] else d] := by
  constructor
  · simp [collapseHeader]
  · simp only [collapseHeader, List.getElem?_map, h, Option.map_some']
    simp [List.eraseIdx]

/-- C7 witness: the amended statement at a concrete header with an
auto-generated cell in the last level, which is blanked. -/
theorem collapseHeader_spec_witness :
    (collapseHeader [[['y'], ['m'], ['z'], "Unnamed: 3".data]])[0]? =
      some [['y'], ['m'], ([] : List Char)] :=
  (collapseHeader_spec [[['y'], ['m'], ['z'], "Unnamed: 3".data]] 0
    ['y'] ['m'] ['z'] ("Unnamed: 3".data) rfl).2

mutual
/-- An HTML node: an element with tag, attributes and children, or a
text node. -/
inductive Html where
  | elem : String → List (String × String) → HtmlList → Html
  | textNode : List Char → Html
/-- A list of HTML nodes (mutual with Html to keep structural
recursion). -/
inductive HtmlList where
  | nil : HtmlList
  | cons : Html → HtmlList → HtmlList
end

def HtmlList.ofList : List Html → HtmlList
  | [] => .nil
  | h :: t => .cons h (HtmlList.ofList t)

mutual
/-- The text of a node, as BeautifulSoup `.text`: the concatenation of
all descendant text in document order. -/
def Html.textOf : Html → List Char
  | .textNode s => s
  | .elem _ _ cs => HtmlList.textOf cs
def HtmlList.textOf : HtmlList → List Char
  | .nil => []
  | .cons h t => Html.textOf h ++ HtmlList.textOf t
end

mutual
/-- All

 nodes of a subtree (the root included) satisfying a predicate,
in document order. -/
def Html.findAll (p : Html → Bool) : Html → List Html
  | .textNode _ => []
  | .elem t a cs =>
    (if p (.elem t a cs) then [Html.elem t a cs] else []) ++ HtmlList.findAll p cs
def HtmlList.findAll (p : Html → Bool) : HtmlList → List Html
  | .nil => []
  | .cons h t => Html.findAll p h ++ HtmlList.findAll p t
end

/-- BeautifulSoup find_all on a tag: the matching descendants in
document order, the tag itself excluded. -/
def Html.findAllDesc (p : Html → Bool) : Html → List Html
  | .textNode _ => []
  | .elem _ _ cs => HtmlList.findAll p cs

/-- Attribute filter: the element carries the attribute with exactly the
requested value (BeautifulSoup attribute dict matching, with the
multi-valued class attribute modelled as a single exact token). -/
def hasAttr (attrs : List (String × String)) (k v : String) : Bool :=
  attrs.contains (k, v)

/-- The table selector of get_weather_from_html (read_weather.py
line 57): a table with id "tablefix1" and class "data2_s". -/
def isWeatherTable : Html → Bool
  | .elem tag attrs _ =>
    tag == "table" && hasAttr attrs "id" "tablefix1" &&
      hasAttr attrs "class" "data2_s"
  | .textNode _ => false

/-- The row selector of get_weather_from_html (read_weather.py line 60):
a tr with class "mtx" and the right-aligned style. -/
def isMtxRow : Html → Bool
  | .elem tag attrs _ =>
    tag == "tr" && hasAttr attrs "class" "mtx" &&
      hasAttr attrs "style" "text-align:right;"
  | .textNode _ => false

def isTd : Html → Bool
  | .elem tag _ _ => tag == "td"
  | .textNode _ => false

/-- The stripped text of each td cell of a row (read_weather.py lines
65-66). -/
def cellTexts (row : Html) : List (List Char) :=
  (Html.findAllDesc isTd row).map (fun c => pyStrip (Html.textOf c))

/-- get_weather_from_html extraction core (read_weather.py lines 57-67):
find the weather table (none models the Python AttributeError raised
when the table is absent), collect its matching rows, and keep each
row's nonempty stripped td texts (the comprehension `if ele` drops empty
strings).  The HTTP fetch before and the DataFrame construction after
this core are not modelled. -/
def get_weather_from_html (page : Html) : Option (List (List (List Char))) :=
  match (Html.findAllDesc isWeatherTable page).head? with
  | none => none
  | some table =>
    some ((Html.findAllDesc isMtxRow table).map
      (fun row => (cellTexts row).filter (fun s => !s.isEmpty)))

/-- C6: when the page holds the signature table whose matching rows are
`rows`, extraction returns exactly one value row per matching table row
in original order, each obtained by dropping the empty cells of that
row; a row of 21 nonempty cells therefore contributes exactly its 21
cell texts. -/
theorem get_weather_from_html_spec (page table : Html) (rows : List Html)
    (ht : (Html.findAllDesc isWeatherTable page).head? = some table)
    (hr : Html.findAllDesc isMtxRow table = rows) :
    get_weather_from_html page =
      some (rows.map (fun row => (cellTexts row).filter (fun s => !s.isEmpty))) ∧
    (rows.map (fun row => (cellTexts row).filter (fun s => !s.isEmpty))).length
      = rows.length ∧
    ∀ row ∈ rows,
      ((cellTexts row).length = 21 ∧ ∀ s ∈ cellTexts row, !s.isEmpty) →
        (cellTexts row).filter (fun s => !s.isEmpty) = cellTexts row ∧
        ((cellTexts row).filter (fun s => !s.isEmpty)).length = 21 := by
  refine ⟨?_, by simp, ?_⟩
  · simp only [get_weather_from_html, ht, hr]
  · intro row _ hrow
    have hfil : (cellTexts row).filter (fun s => !s.isEmpty) = cellTexts row :=
      List.filter_eq_self.mpr hrow.2
    refine ⟨hfil, ?_⟩
    rw [hfil]
    exact hrow.1

/-- A td holding one text node. -/
def tdCell (s : List Char) : Html := .elem "td" [] (.cons (.textNode s) .nil)

/-- A data row with the matching signature and 21 nonempty cells. -/
def sampleRow : Html :=
  .elem "tr" [("class", "mtx"), ("style", "text-align:right;")]
    (HtmlList.ofList ((List.replicate 21 ['7']).map tdCell))

/-- A page holding the signature table with one matching row. -/
def samplePage : Html :=
  .elem "html" []
    (.cons
      (.elem "table" [("id", "tablefix1"), ("class", "data2_s")]
        (.cons sampleRow .nil))
      .nil)

/-- C6 witness: extraction on the concrete sample page yields one row of
21 cell texts. -/
theorem get_weather_from_html_spec_witness :
    get_weather_from_html samplePage = some [List.replicate 21 ['7']] := by
  have h := (get_weather_from_html_spec samplePage
    (.elem "table" [("id", "tablefix1"), ("class", "data2_s")]
      (.cons sampleRow .nil)) [sampleRow] rfl rfl).1
  rw [h]
  rfl

/-- Python single-character str.replace. -/
def pyReplaceCh (a b : Char) (l : List Char) : List Char :=
  l.map (fun c => if c = a then b else c)

/-- Python dict assignment d[k] = v, preserving insertion order and
overwriting an existing key in place. -/
def pyDictSet (d : List (List Char × List Char)) (k v : List Char) :
    List (List Char × List Char) :=
  if d.any (fun p => p.1 == k) then
    d.map (fun p => if p.1 == k then (k, v) else p)
  else d ++ [(k, v)]

/-- One loop iteration of parse_text (read_weather.py lines 118-123):
normalize the full-width colon to the ASCII colon, split on the colon,
skip the line when fewer than two parts result, otherwise store part 1
under part 0. -/
def parse_text_step (data : List (List Char × List Char)) (line : List Char) :
    List (List Char × List Char) :=
  match pySplit ':' (pyReplaceCh '：' ':' line) with
  | p0 :: p1 :: _ => pyDictSet data p0 p1
  | _ => data

/-- parse_text (read_weather.py lines 116-124): fold the per-line step
over the newline-split lines of the title text, starting from the empty
record. -/
def parse_text (text : List Char) : List (List Char × List Char) :=
  (pySplit '\n' text).foldl parse_text_step []

/-- The lines printed by parse_text while it runs: the log call for
malformed lines (read_weather.py line 121) is commented out in the
source, so nothing is ever printed. -/
def parse_text_printed (_text : List Char) : List (List Char) := []

/-- C9, counterexample: the colon-free title line "abc" is skipped (the
record stays empty, no failure), but contrary to the claim it is NOT
logged: the logging statement in the source is commented out, so the
printed output is empty. -/
theorem parse_text_no_logging :
    parse_text ("abc".data) = [] ∧
    "abc".data ∉ parse_text_printed ("abc".data) := by
  constructor
  · rfl
  · simp [parse_text_printed]

theorem parse_text_step_malformed (d : List (List Char × List Char))
    (bad : List Char)
    (hm : (pySplit ':' (pyReplaceCh '：' ':' bad)).length < 2) :
    parse_text_step d bad = d := by
  unfold parse_text_step
  cases hs : pySplit ':' (pyReplaceCh '：' ':' bad) with
  | nil => rfl
  | cons p0 t =>
    cases t with
    | nil => rfl
    | cons p1 t2 =>
      rw [hs] at hm
      simp only [List.length_cons] at hm
      omega

/-- Python sep.join on character lists, used to assemble multi-line and
multi-part test strings. -/
def pyJoinCh (sep : Char) : List (List Char) → List Char
  | [] => []
  | [x] => x
  | x :: xs => x ++ sep :: pyJoinCh sep xs

theorem pySplit_pyJoinCh (sep : Char) (ls : List (List Char)) (hne : ls ≠ [])
    (h : ∀ l ∈ ls, sep ∉ l) :
    pySplit sep (pyJoinCh sep ls) = ls := by
  induction ls with
  | nil => exact absurd rfl hne
  | cons l ls ih =>
    cases ls with
    | nil => exact pySplit_no_sep sep l (h l (List.mem_cons_self l []))
    | cons l2 ls2 =>
      have hj : pyJoinCh sep (l :: l2 :: ls2) = l ++ sep :: pyJoinCh sep (l2 :: ls2) := rfl
      rw [hj, pySplit_append sep l _ (h l (List.mem_cons_self _ _)),
        ih (by simp) (fun x hx => h x (List.mem_cons_of_mem _ hx))]

theorem pyJoinCh_not_mem (sep c : Char) (ls : List (List Char))
    (hcs : c ≠ sep) (h : ∀ l ∈ ls, c ∉ l) : c ∉ pyJoinCh sep ls := by
  induction ls with
  | nil => simp [pyJoinCh]
  | cons x ls ih =>
    cases ls with
    | nil =>
      intro hm
      exact h x (List.mem_cons_self x []) hm
    | cons y t =>
      intro hmem
      have hj : pyJoinCh sep (x :: y :: t) = x ++ sep :: pyJoinCh sep (y :: t) := rfl
      rw [hj] at hmem
      rcases List.mem_append.mp hmem with hx | hrest
      · exact h x (List.mem_cons_self _ _) hx
      · rcases List.mem_cons.mp hrest with rfl | hmem2
        · exact hcs rfl
        · exact ih (fun l hl => h l (List.mem_cons_of_mem _ hl)) hmem2

theorem pyReplaceCh_id (a b : Char) (l : List Char) (h : a ∉ l) :
    pyReplaceCh a b l = l := by
  unfold pyReplaceCh
  have : l.map (fun c => if c = a then b else c) = l.map id := by
    refine List.map_congr_left ?_
    intro c hc
    have : c ≠ a := fun e => h (e ▸ hc)
    simp [this]
  rw [this, List.map_id]

theorem pyReplaceCh_pyJoinCh (a b : Char) (ls : List (List Char))
    (h : ∀ l ∈ ls, a ∉ l) :
    pyReplaceCh a b (pyJoinCh a ls) = pyJoinCh b ls := by
  induction ls with
  | nil => rfl
  | cons x ls ih =>
    cases ls with
    | nil => exact pyReplaceCh_id a b x (h x (List.mem_cons_self x []))
    | cons y t =>
      have hj : pyJoinCh a (x :: y :: t) = x ++ a :: pyJoinCh a (y :: t) := rfl
      have hj2 : pyJoinCh b (x :: y :: t) = x ++ b :: pyJoinCh b (y :: t) := rfl
      rw [hj, hj2]
      unfold pyReplaceCh
      rw [List.map_append]
      have hx : x.map (fun c => if c = a then b else c) = x :=
        pyReplaceCh_id a b x (h x (List.mem_cons_self _ _))
      rw [hx, List.map_cons, if_pos rfl]
      have := ih (fun l hl => h l (List.mem_cons_of_mem _ hl))
      unfold pyReplaceCh at this
      rw [this]

/-- C9, amended: a title line that splits into fewer than two
colon-separated parts is individually skipped without failing (though
not logged: the log call is commented out), and the record is the one
computed from the remaining lines alone. -/
theorem parse_text_skips_malformed (ls1 ls2 : List (List Char))
    (bad : List Char)
    (h1 : ∀ l ∈ ls1, '\n' ∉ l) (h2 : ∀ l ∈ ls2, '\n' ∉ l) (hb : '\n' ∉ bad)
    (hm : (pySplit ':' (pyReplaceCh '：' ':' bad)).length < 2) :
    parse_text (pyJoinCh '\n' (ls1 ++ bad :: ls2)) =
      parse_text (pyJoinCh '\n' (ls1 ++ ls2)) := by
  have hall1 : ∀ l ∈ ls1 ++ bad :: ls2, '\n' ∉ l := by
    intro l hl
    rcases List.mem_append.mp hl with ha | hbc
    · exact h1 l ha
    · rcases List.mem_cons.mp hbc with rfl | hc
      · exact hb
      · exact h2 l hc
  by_cases hc : ls1 ++ ls2 = []
  · rcases List.append_eq_nil.mp hc with ⟨e1, e2⟩
    subst e1
    subst e2
    show parse_text (pyJoinCh '\n' [bad]) = parse_text (pyJoinCh '\n' [])
    unfold parse_text
    have hjb : pyJoinCh '\n' [bad] = bad := rfl
    rw [hjb, pySplit_no_sep '\n' bad hb]
    simp only [List.foldl_cons, List.foldl_nil]
    rw [parse_text_step_malformed [] bad hm]
    rfl
  · have hall2 : ∀ l ∈ ls1 ++ ls2, '\n' ∉ l := by
      intro l hl
      rcases List.mem_append.mp hl with ha | hcm
      · exact h1 l ha
      · exact h2 l hcm
    unfold parse_text
    rw [pySplit_pyJoinCh '\n' (ls1 ++ bad :: ls2) (by simp) hall1,
      pySplit_pyJoinCh '\n' (ls1 ++ ls2) hc hall2,
      List.foldl_append, List.foldl_append]
    simp only [List.foldl_cons]
    rw [parse_text_step_malformed _ bad hm]

/-- C9 witness: inserting the colon-free line "xyz" after a well-formed
line leaves the parsed record unchanged. -/
theorem parse_text_skips_malformed_witness :
    parse_text (pyJoinCh '\n' ([[' ', 'a', ':', 'b']] ++ "xyz".data :: [])) =
      parse_text (pyJoinCh '\n' ([[' ', 'a', ':', 'b']] ++ [])) :=
  parse_text_skips_malformed [[' ', 'a', ':', 'b']] [] ("xyz".data)
    (by decide) (by decide) (by decide) (by decide)

/-- C10: a title line assembled from three or more colon-separated parts
(with either the ASCII colon or the full-width colon, which is
normalized first) yields exactly one record entry pairing the first part
with the second; the third and later parts are silently discarded. -/
theorem parse_text_keeps_first_two (p0 p1 : List Char)
    (rest : List (List Char))
    (h0 : ':' ∉ p0 ∧ '：' ∉ p0 ∧ '\n' ∉ p0)
    (h1 : ':' ∉ p1 ∧ '：' ∉ p1 ∧ '\n' ∉ p1)
    (hr : ∀ r ∈ rest, ':' ∉ r ∧ '：' ∉ r ∧ '\n' ∉ r) :
    parse_text (pyJoinCh ':' (p0 :: p1 :: rest)) = [(p0, p1)] ∧
    parse_text (pyJoinCh '：' (p0 :: p1 :: rest)) = [(p0, p1)] := by
  have hcol : ∀ l ∈ p0 :: p1 :: rest, ':' ∉ l := by
    intro l hl
    rcases List.mem_cons.mp hl with rfl | hl2
    · exact h0.1
    · rcases List.mem_cons.mp hl2 with rfl | hl3
      · exact h1.1
      · exact (hr l hl3).1
  have hful : ∀ l ∈ p0 :: p1 :: rest, '：' ∉ l := by
    intro l hl
    rcases List.mem_cons.mp hl with rfl | hl2
    · exact h0.2.1
    · rcases List.mem_cons.mp hl2 with rfl | hl3
      · exact h1.2.1
      · exact (hr l hl3).2.1
  have hnl : ∀ l ∈ p0 :: p1 :: rest, '\n' ∉ l := by
    intro l hl
    rcases List.mem_cons.mp hl with rfl | hl2
    · exact h0.2.2
    · rcases List.mem_cons.mp hl2 with rfl | hl3
      · exact h1.2.2
      · exact (hr l hl3).2.2
  constructor
  · have hline : '\n' ∉ pyJoinCh ':' (p0 :: p1 :: rest) :=
      pyJoinCh_not_mem ':' '\n' _ (by decide) hnl
    have hnofull : '：' ∉ pyJoinCh ':' (p0 :: p1 :: rest) :=
      pyJoinCh_not_mem ':' '：' _ (by decide) hful
    unfold parse_text
    rw [pySplit_no_sep '\n' _ hline]
    simp only [List.foldl_cons, List.foldl_nil]
    unfold parse_text_step
    rw [pyReplaceCh_id '：' ':' _ hnofull,
      pySplit_pyJoinCh ':' _ (by simp) hcol]
    rfl
  · have hline : '\n' ∉ pyJoinCh '：' (p0 :: p1 :: rest) :=
      pyJoinCh_not_mem '：' '\n' _ (by decide) hnl
    unfold parse_text
    rw [pySplit_no_sep '\n' _ hline]
    simp only [List.foldl_cons, List.foldl_nil]
    unfold parse_text_step
    rw [pyReplaceCh_pyJoinCh '：' ':' _ hful,
      pySplit_pyJoinCh ':' _ (by simp) hcol]
    rfl

/-- C10 witness: the statement at the concrete four-part line
"a:b:c:d", in both colon widths. -/
theorem parse_text_keeps_first_two_witness :
    parse_text (pyJoinCh ':' [['a'], ['b'], ['c'], ['d']]) = [(['a'], ['b'])] :=
  (parse_text_keeps_first_two ['a'] ['b'] [['c'], ['d']]
    (by decide) (by decide) (by decide)).1
